import Mathlib

/-!
Verification development for the ORDER_BOOK_FOR_TEST repository
(single source file `src/main.cpp`).

The C++ order book is shallowly embedded here:

* `double` prices and quantities are modelled as exact rationals `ℚ`;
  the source's epsilon literal `1e-10` is kept as `eps = 1/10^10`.
  (The embedding is exact arithmetic; IEEE rounding is out of scope.)
* `std::map<double, std::list<Order>>` (asks ascending, bids descending
  via `std::greater`) is modelled as an association list
  `List (ℚ × List Order)` kept in the map's iteration order, best price
  first.  Iterator-based loops become structural recursions over these
  lists, mirroring the loop structure of the source statement by
  statement.
* `std::unordered_map<uint64_t, OrderEntry> order_lookup` is modelled as
  an association list with unique keys; `OrderEntry` keeps the stored
  price and side (the stored `std::list` iterator is represented by the
  order's unique id, which identifies the same queue element).
* The `Order` field `timestamp` is set from a wall clock in the source
  and never read by any book logic, so it is omitted.
* Console output (`std::cout`) carries no book state and is dropped;
  `displayDepth` instead returns the data it would have printed,
  paired with the (unchanged) book state, so that its frame effect is
  expressible.
-/

/-- Order side, from `enum Side { BUY, SELL }`. -/
inductive Side where
  | BUY : Side
  | SELL : Side
deriving DecidableEq

/-- Embeds `struct Order` of `src/main.cpp` (the unused `timestamp` field is
omitted; see the header comment). -/
structure Order where
  id : ℕ
  price : ℚ
  quantity : ℚ
  originalQuantity : ℚ
  filledQuantity : ℚ
  side : Side
  symbol : String
deriving DecidableEq

/-- The `Order` constructor: `quantity = originalQuantity = _qty`,
`filledQuantity = 0`. -/
def Order.make (id : ℕ) (price quantity : ℚ) (side : Side) (symbol : String) : Order :=
  { id := id, price := price, quantity := quantity, originalQuantity := quantity,
    filledQuantity := 0, side := side, symbol := symbol }

/-- Embeds `struct OrderEntry`: stored location of a resting order.  The stored
list iterator is represented by the order's id (ids in the lookup are
unique and identify the queue element). -/
structure OrderEntry where
  price : ℚ
  side : Side
deriving DecidableEq

/-- The book state: the private fields of `class OrderBook`.
`asks` is kept ascending by price, `bids` descending (the `std::map`
iteration orders); the mutex is a no-op in this sequential model. -/
structure OrderBook where
  asks : List (ℚ × List Order)
  bids : List (ℚ × List Order)
  order_lookup : List (ℕ × OrderEntry)
  lastSeqId : ℤ
deriving DecidableEq

/-- A freshly constructed `OrderBook` (`lastSeqId = -1`). -/
def emptyBook : OrderBook :=
  { asks := [], bids := [], order_lookup := [], lastSeqId := -1 }

/-- Embeds `order_lookup.count(id)` (as a `Bool`; `std::unordered_map` keys are
unique, so count is 0 or 1). -/
def lookupContains (l : List (ℕ × OrderEntry)) (id : ℕ) : Bool :=
  l.any (fun kv => kv.1 == id)

/-- Embeds `order_lookup.find(id)`: the stored entry, if present. -/
def lookupFind (l : List (ℕ × OrderEntry)) (id : ℕ) : Option OrderEntry :=
  (l.find? (fun kv => kv.1 == id)).map Prod.snd

/-- Embeds `order_lookup[id] = e`: insert or overwrite. -/
def lookupInsert (l : List (ℕ × OrderEntry)) (id : ℕ) (e : OrderEntry) :
    List (ℕ × OrderEntry) :=
  if lookupContains l id then
    l.map (fun kv => if kv.1 == id then (id, e) else kv)
  else l ++ [(id, e)]

/-- Embeds `order_lookup.erase(id)` for each id in `ids` (erasure order is
irrelevant on a map with unique keys). -/
def eraseIds (l : List (ℕ × OrderEntry)) (ids : List ℕ) : List (ℕ × OrderEntry) :=
  l.filter (fun kv => !(ids.contains kv.1))

/-- The source's epsilon literal `1e-10`. -/
def eps : ℚ := 1 / 10000000000

/-- Embeds `side_map.erase(price)`: remove the level keyed by `price`, if any. -/
def eraseLevel (price : ℚ) (m : List (ℚ × List Order)) : List (ℚ × List Order) :=
  m.filter (fun pq => pq.1 != price)

/-- Bid-map key order (`std::greater<double>`): `x` is iterated before `y`
iff `y < x`. -/
def bidBefore (x y : ℚ) : Bool := y < x

/-- Ask-map key order: `x` is iterated before `y` iff `x < y`. -/
def askBefore (x y : ℚ) : Bool := x < y

/-- The body of the non-erasing branch of `OrderBook::updateMap` applied
to the queue at `price` (`side_map[price]` semantics): an absent level is
created holding a single synthetic order; otherwise the queue's front
order — synthetic or not — gets its quantity overwritten with
`totalQuantity` (both branches of the source `if` do this when the queue
is non-empty). -/
def updateMapQueue (price totalQuantity : ℚ) (side : Side) (q : List Order) :
    List Order :=
  match q with
  | [] => [Order.make 0 price totalQuantity side "OKX"]
  | front :: rest => { front with quantity := totalQuantity } :: rest

/-- The non-erasing branch of `OrderBook::updateMap` over the whole side
map: locate (or create, in key order) the level at `price` and apply
`updateMapQueue`. -/
def updateMapSet (before : ℚ → ℚ → Bool) (price totalQuantity : ℚ) (side : Side) :
    List (ℚ × List Order) → List (ℚ × List Order)
  | [] => [(price, updateMapQueue price totalQuantity side [])]
  | (p, q) :: rest =>
    if before price p then
      (price, updateMapQueue price totalQuantity side []) :: (p, q) :: rest
    else if price = p then
      (p, updateMapQueue price totalQuantity side q) :: rest
    else
      (p, q) :: updateMapSet before price totalQuantity side rest

/-- Embeds `OrderBook::updateMap`: erase the level when `totalQuantity < 1e-10`
(note: without touching `order_lookup`), otherwise set the synthetic /
front quantity. -/
def updateMap (before : ℚ → ℚ → Bool) (m : List (ℚ × List Order))
    (price totalQuantity : ℚ) (side : Side) : List (ℚ × List Order) :=
  if totalQuantity < eps then eraseLevel price m
  else updateMapSet before price totalQuantity side m

/-- The inner queue loop of `OrderBook::match`: drain resting orders FIFO
while the incoming quantity exceeds `eps`.  Returns the remaining
incoming quantity, the surviving queue, and the ids (≠ 0) of fully
filled makers, which the source erases from `order_lookup`. -/
def matchQueue (inc : ℚ) : List Order → ℚ × List Order × List ℕ
  | [] => (inc, [], [])
  | o :: rest =>
    if eps < inc then
      let fill := min inc o.quantity
      let inc2 := inc - fill
      let oq := o.quantity - fill
      if oq < eps then
        let r := matchQueue inc2 rest
        (r.1, r.2.1, (if o.id ≠ 0 then [o.id] else []) ++ r.2.2)
      else
        let r := matchQueue inc2 rest
        (r.1, { o with quantity := oq } :: r.2.1, r.2.2)
    else (inc, o :: rest, [])

/-- The level loop of `OrderBook::match`: walk the counter side from its
best price, stop when the price predicate fails, drain crossing levels
via `matchQueue`, and drop levels whose queue emptied.  Returns the
incoming order with its remaining quantity, the surviving counter-side
map, and the ids of fully filled makers. -/
def matchSide (incoming : Order) : List (ℚ × List Order) →
    Order × List (ℚ × List Order) × List ℕ
  | [] => (incoming, [], [])
  | (p, q) :: rest =>
    if eps < incoming.quantity then
      if (incoming.side = Side.BUY ∧ incoming.price < p) ∨
         (incoming.side = Side.SELL ∧ p < incoming.price) then
        (incoming, (p, q) :: rest, [])
      else
        let r := matchQueue incoming.quantity q
        let inc2 := { incoming with quantity := r.1 }
        if r.2.1.isEmpty then
          let r2 := matchSide inc2 rest
          (r2.1, r2.2.1, r.2.2 ++ r2.2.2)
        else
          let r2 := matchSide inc2 rest
          (r2.1, (p, r.2.1) :: r2.2.1, r.2.2 ++ r2.2.2)
    else (incoming, (p, q) :: rest, [])

/-- Embeds `side_map[price].push_back(order)` on a sorted side map: append the
order to its price's queue, creating the level at its key-ordered
position if absent. -/
def insertOrder (before : ℚ → ℚ → Bool) (o : Order) :
    List (ℚ × List Order) → List (ℚ × List Order)
  | [] => [(o.price, [o])]
  | (p, q) :: rest =>
    if before o.price p then (o.price, [o]) :: (p, q) :: rest
    else if o.price = p then (p, q ++ [o]) :: rest
    else (p, q) :: insertOrder before o rest

/-- Embeds `OrderBook::limitOrder`: reject silently if the id is already
indexed; otherwise construct the order, match it against the counter
side (erasing fully filled makers from the lookup), and rest the
remainder (if above `eps`) on its own side, recording its lookup entry. -/
def limitOrder (st : OrderBook) (id : ℕ) (price quantity : ℚ) (side : Side)
    (symbol : String) : OrderBook :=
  if lookupContains st.order_lookup id then st
  else
    let new_order := Order.make id price quantity side symbol
    let step :=
      match side with
      | Side.BUY =>
        let r := matchSide new_order st.asks
        (r.1, { st with asks := r.2.1, order_lookup := eraseIds st.order_lookup r.2.2 })
      | Side.SELL =>
        let r := matchSide new_order st.bids
        (r.1, { st with bids := r.2.1, order_lookup := eraseIds st.order_lookup r.2.2 })
    let o := step.1
    let st1 := step.2
    if eps < o.quantity then
      match side with
      | Side.BUY =>
        { st1 with bids := insertOrder bidBefore o st1.bids,
                   order_lookup := lookupInsert st1.order_lookup id ⟨price, side⟩ }
      | Side.SELL =>
        { st1 with asks := insertOrder askBefore o st1.asks,
                   order_lookup := lookupInsert st1.order_lookup id ⟨price, side⟩ }
    else st1

/-- The innermost loop of `OrderBook::checkAndMatchLocalOrders`: walk the
head ask queue against one bid order `b`.  A pair with both ids 0 breaks
the loop (exchange-internal crossing, left untouched); otherwise fill
`min` of the two quantities.  Returns the updated bid order, the
surviving ask queue, and erased ask ids. -/
def crossAskQueue (b : Order) : List Order → Order × List Order × List ℕ
  | [] => (b, [], [])
  | a :: rest =>
    if eps < b.quantity then
      if b.id ≠ 0 ∨ a.id ≠ 0 then
        let fill := min b.quantity a.quantity
        let b2 := { b with quantity := b.quantity - fill }
        let aq := a.quantity - fill
        if aq < eps then
          let r := crossAskQueue b2 rest
          (r.1, r.2.1, (if a.id ≠ 0 then [a.id] else []) ++ r.2.2)
        else
          let r := crossAskQueue b2 rest
          (r.1, { a with quantity := aq } :: r.2.1, r.2.2)
      else (b, a :: rest, [])
    else (b, a :: rest, [])

/-- The middle loop of `checkAndMatchLocalOrders`: walk the head bid
queue, matching each bid order against the (shrinking) head ask queue,
erasing fully filled bid orders.  Returns the surviving bid queue, the
surviving ask queue, and all erased ids. -/
def crossQueues : List Order → List Order → List Order × List Order × List ℕ
  | [], aq => ([], aq, [])
  | b :: brest, aq =>
    if aq.isEmpty then (b :: brest, aq, [])
    else
      let r := crossAskQueue b aq
      if r.1.quantity < eps then
        let r2 := crossQueues brest r.2.1
        (r2.1, r2.2.1, r.2.2 ++ (if b.id ≠ 0 then [b.id] else []) ++ r2.2.2)
      else
        let r2 := crossQueues brest r.2.1
        (r.1 :: r2.1, r2.2.1, r.2.2 ++ r2.2.2)

/-- The outer level loop of `checkAndMatchLocalOrders`: while both sides
have a current level and `bestBid ≥ bestAsk`, cross the two head queues;
then `if (b_queue.empty()) bids.erase(b_it++); else if (a_queue.empty())
asks.erase(a_it++); else break;` — mirrored literally, including the
`else if` (only one of the two emptied levels is dropped per
iteration).  The fuel starts at the total level count; every recursive
call removes exactly one level and spends one fuel, so fuel exhaustion
coincides with both lists being empty and the 0 case equals the loop's
exit behaviour. -/
def crossLevels : ℕ → List (ℚ × List Order) → List (ℚ × List Order) →
    List (ℚ × List Order) × List (ℚ × List Order) × List ℕ
  | 0, bl, al => (bl, al, [])
  | fuel + 1, bl, al =>
    match bl, al with
    | [], al2 => ([], al2, [])
    | bl2, [] => (bl2, [], [])
    | (bp, bq) :: brest, (ap, aq) :: arest =>
      if ap ≤ bp then
        let r := crossQueues bq aq
        if r.1.isEmpty then
          let r2 := crossLevels fuel brest ((ap, r.2.1) :: arest)
          (r2.1, r2.2.1, r.2.2 ++ r2.2.2)
        else if r.2.1.isEmpty then
          let r2 := crossLevels fuel ((bp, r.1) :: brest) arest
          (r2.1, r2.2.1, r.2.2 ++ r2.2.2)
        else ((bp, r.1) :: brest, (ap, r.2.1) :: arest, r.2.2)
      else ((bp, bq) :: brest, (ap, aq) :: arest, [])

/-- Embeds `OrderBook::checkAndMatchLocalOrders`. -/
def checkAndMatchLocalOrders (st : OrderBook) : OrderBook :=
  if st.bids.isEmpty || st.asks.isEmpty then st
  else
    let r := crossLevels (st.bids.length + st.asks.length) st.bids st.asks
    { st with bids := r.1, asks := r.2.1,
              order_lookup := eraseIds st.order_lookup r.2.2 }

/-- Embeds `OrderBook::updateLevel`: apply the feed level to the chosen side,
then run the local-order crossing check. -/
def updateLevel (st : OrderBook) (side : Side) (price totalQuantity : ℚ) :
    OrderBook :=
  let st1 :=
    match side with
    | Side.BUY => { st with bids := updateMap bidBefore st.bids price totalQuantity Side.BUY }
    | Side.SELL => { st with asks := updateMap askBefore st.asks price totalQuantity Side.SELL }
  checkAndMatchLocalOrders st1

/-- Embeds `OrderBook::clear`. -/
def OrderBook.clear (_st : OrderBook) : OrderBook :=
  { asks := [], bids := [], order_lookup := [], lastSeqId := -1 }

/-- Embeds `OrderBook::setSeqId`. -/
def setSeqId (st : OrderBook) (seqId : ℤ) : OrderBook :=
  { st with lastSeqId := seqId }

/-- Embeds `OrderBook::getSeqId`. -/
def getSeqId (st : OrderBook) : ℤ := st.lastSeqId

/-- Aggregate quantity of a level (`for (auto const& o : it->second)
level_qty += o.quantity`). -/
def levelQty (q : List Order) : ℚ := q.foldl (fun acc o => acc + o.quantity) 0

/-- Embeds `OrderBook::displayDepth` (const): returns the book state it leaves
behind together with the depth data it prints — `none` when both sides
are empty (the early return), otherwise the top `levels` ask levels
(printed worst-to-best, hence reversed) and the top `levels` bid
levels, each as (price, aggregate quantity). -/
def displayDepth (st : OrderBook) (levels : ℕ) :
    OrderBook × Option (List (ℚ × ℚ) × List (ℚ × ℚ)) :=
  if st.asks.isEmpty && st.bids.isEmpty then (st, none)
  else
    let top_asks := (((st.asks.take levels).map (fun pq => (pq.1, levelQty pq.2))).reverse)
    let top_bids := ((st.bids.take levels).map (fun pq => (pq.1, levelQty pq.2)))
    (st, some (top_asks, top_bids))

/-- Feed record action (`action` field of an OKX `books` message). -/
inductive FeedAction where
  | Snapshot : FeedAction
  | Update : FeedAction
deriving DecidableEq

/-- The spec's `SequenceOutcome` type, used to state the sequence
continuity claims about the ingest path. -/
inductive SequenceOutcome where
  | Applied : SequenceOutcome
  | AppliedWithReset : SequenceOutcome
  | GapDetected : SequenceOutcome
deriving DecidableEq

/-- The feed-ingest path of `startOkxSync`'s message callback for one
data record: `if (action == "snapshot") ob.clear(); ob.setSeqId(seqId);`
then `ob.updateLevel(...)` per level.  The source never reads a
`prevSeqId` field and has no gap branch: every record is applied
unconditionally, so the outcome observable to the caller is always
`Applied` (the parameter `prevSeqId` is accepted, and ignored, exactly
as the source ignores it). -/
def ingestFeedRecord (st : OrderBook) (action : FeedAction)
    (seqId : ℤ) (_prevSeqId : ℤ) (levels : List (Side × ℚ × ℚ)) :
    SequenceOutcome × OrderBook :=
  let st1 := match action with
    | FeedAction.Snapshot => st.clear
    | FeedAction.Update => st
  let st2 := setSeqId st1 seqId
  let st3 := levels.foldl (fun s l => updateLevel s l.1 l.2.1 l.2.2) st2
  (SequenceOutcome.Applied, st3)

/-- The spec's `CancelOutcome` type. -/
inductive CancelOutcome where
  | Cancelled : CancelOutcome
  | NotFound : CancelOutcome
deriving DecidableEq

/-- Erase the order identified by `id` from the queue at `price`
(located by its stored position token — ids in the lookup are unique,
so the token designates exactly the order with that id), removing the
level if it became empty. -/
def removeFromLevel (id : ℕ) (price : ℚ) :
    List (ℚ × List Order) → List (ℚ × List Order)
  | [] => []
  | (p, q) :: rest =>
    if p = price then
      let q2 := q.filter (fun o => o.id != id)
      if q2.isEmpty then rest else (p, q2) :: rest
    else (p, q) :: removeFromLevel id price rest

/-- Modelled from the spec: `src/main.cpp` contains no cancel operation;
spec §4.3/§6 describe `cancel(id)`.  If the id is absent from the
OrderIndex, a no-op returning `NotFound`; if present, erase the order
from its price-level queue via the stored price/side, remove the level
if now empty, remove the index entry, and return `Cancelled`. -/
def cancel (st : OrderBook) (id : ℕ) : CancelOutcome × OrderBook :=
  match lookupFind st.order_lookup id with
  | none => (CancelOutcome.NotFound, st)
  | some e =>
    let st2 :=
      match e.side with
      | Side.BUY => { st with bids := removeFromLevel id e.price st.bids }
      | Side.SELL => { st with asks := removeFromLevel id e.price st.asks }
    (CancelOutcome.Cancelled, { st2 with order_lookup := eraseIds st.order_lookup [id] })

/-- Best bid price: the first key of the descending bid map. -/
def bestBid (st : OrderBook) : Option ℚ := st.bids.head?.map Prod.fst

/-- Best ask price: the first key of the ascending ask map. -/
def bestAsk (st : OrderBook) : Option ℚ := st.asks.head?.map Prod.fst

/-- The book is not crossed: best bid strictly below best ask whenever
both sides are non-empty. -/
def Uncrossed (st : OrderBook) : Prop :=
  ∀ b a, bestBid st = some b → bestAsk st = some a → b < a

/-- The ask map's `std::map<double, ...>` key invariant: strictly
ascending prices. -/
def sortedAsks (l : List (ℚ × List Order)) : Prop :=
  l.Pairwise (fun x y => x.1 < y.1)

/-- The bid map's `std::map<double, ..., std::greater>` key invariant:
strictly descending prices. -/
def sortedBids (l : List (ℚ × List Order)) : Prop :=
  l.Pairwise (fun x y => y.1 < x.1)

/-- The ids (excluding the synthetic id 0) of orders physically resting
in some price level of one side. -/
def sideIds (m : List (ℚ × List Order)) : List ℕ :=
  (m.flatMap (fun pq => pq.2.map Order.id)).filter (fun i => i ≠ 0)

/-- All resting local ids of the book, both sides. -/
def restingIds (st : OrderBook) : List ℕ := sideIds st.bids ++ sideIds st.asks

/-- The book after `limitOrder(5, 12, 10, SELL, "S")` on a fresh book:
one ask level at 12 holding the lone local order. -/
def sell5Book : OrderBook := limitOrder emptyBook 5 12 10 Side.SELL "S"

/-- A book crossed by the feed alone: synthetic bid 5@10 and synthetic
ask 5@9.  `checkAndMatchLocalOrders` deliberately skips the
synthetic/synthetic pair, leaving the crossing in place. -/
def crossedBook : OrderBook :=
  updateLevel (updateLevel emptyBook Side.BUY 10 5) Side.SELL 9 5

lemma eps_pos : (0 : ℚ) < eps := by norm_num [eps]

/-- A taker with no remaining quantity (≤ eps) leaves a queue untouched. -/
lemma matchQueue_noop (inc : ℚ) (q : List Order) (h : ¬ eps < inc) :
    matchQueue inc q = (inc, q, []) := by
  cases q with
  | nil => simp [matchQueue]
  | cons o rest => simp [matchQueue, h]

/-- If the taker still has quantity above eps after draining a queue,
the queue was fully consumed. -/
lemma matchQueue_rem_nonempty (q : List Order) : ∀ inc : ℚ,
    eps < (matchQueue inc q).1 → (matchQueue inc q).2.1 = [] := by
  induction q with
  | nil => intro inc _; simp [matchQueue]
  | cons o rest ih =>
    intro inc h
    by_cases h1 : eps < inc
    · simp only [matchQueue, if_pos h1] at h ⊢
      revert h
      split
      · intro h; exact ih _ h
      · rename_i hkeep
        intro h
        exfalso
        rcases le_or_lt inc o.quantity with hle | hlt
        · rw [min_eq_left hle, sub_self, matchQueue_noop 0 rest (by simpa using eps_pos.not_lt)] at h
          exact absurd h eps_pos.not_lt
        · rw [min_eq_right hlt.le, sub_self] at hkeep
          exact hkeep eps_pos
    · rw [matchQueue_noop inc (o :: rest) h1] at h
      exact absurd h h1

/-- A taker with no remaining quantity (≤ eps) leaves the counter side
untouched. -/
lemma matchSide_noop (m : List (ℚ × List Order)) (o : Order)
    (h : ¬ eps < o.quantity) : matchSide o m = (o, m, []) := by
  cases m with
  | nil => simp [matchSide]
  | cons pq rest => simp [matchSide, h]

/-- Matching never changes the incoming order's price or side. -/
lemma matchSide_price_side (m : List (ℚ × List Order)) : ∀ o : Order,
    (matchSide o m).1.price = o.price ∧ (matchSide o m).1.side = o.side := by
  induction m with
  | nil => intro o; simp [matchSide]
  | cons pq rest ih =>
    intro o
    obtain ⟨p, q⟩ := pq
    by_cases h1 : eps < o.quantity
    · by_cases h2 : (o.side = Side.BUY ∧ o.price < p) ∨
        (o.side = Side.SELL ∧ p < o.price)
      · simp [matchSide, h1, h2]
      · simp only [matchSide, if_pos h1, if_neg h2]
        split
        · exact ih _
        · exact ih _
    · simp [matchSide, h1]

/-- Every level surviving a match had its price in the original map. -/
lemma matchSide_price_mem (m : List (ℚ × List Order)) : ∀ (o : Order)
    (x : ℚ × List Order), x ∈ (matchSide o m).2.1 → x.1 ∈ m.map Prod.fst := by
  induction m with
  | nil => intro o x hx; simp [matchSide] at hx
  | cons pq rest ih =>
    intro o x hx
    obtain ⟨p, q⟩ := pq
    by_cases h1 : eps < o.quantity
    · by_cases h2 : (o.side = Side.BUY ∧ o.price < p) ∨
        (o.side = Side.SELL ∧ p < o.price)
      · simp only [matchSide, if_pos h1, if_pos h2] at hx
        exact List.mem_map_of_mem Prod.fst hx
      · simp only [matchSide, if_pos h1, if_neg h2] at hx
        split at hx
        · exact List.mem_cons_of_mem _ (ih _ _ hx)
        · rcases List.mem_cons.mp hx with rfl | hx2
          · exact List.mem_cons_self _ _
          · exact List.mem_cons_of_mem _ (ih _ _ hx2)
    · rw [matchSide_noop _ _ h1] at hx
      exact List.mem_map_of_mem Prod.fst hx

/-- If the taker exits matching with remaining quantity above eps while
the counter side is non-empty, the surviving best counter level is
strictly beyond the taker's price (worse than it can cross). -/
lemma matchSide_head_beyond (m : List (ℚ × List Order)) : ∀ (o : Order)
    (hd : ℚ × List Order) (tl : List (ℚ × List Order)),
    (matchSide o m).2.1 = hd :: tl → eps < (matchSide o m).1.quantity →
    (o.side = Side.BUY → o.price < hd.1) ∧
    (o.side = Side.SELL → hd.1 < o.price) := by
  induction m with
  | nil => intro o hd tl hcons _; simp [matchSide] at hcons
  | cons pq rest ih =>
    intro o hd tl hcons hq
    obtain ⟨p, q⟩ := pq
    by_cases h1 : eps < o.quantity
    · by_cases h2 : (o.side = Side.BUY ∧ o.price < p) ∨
        (o.side = Side.SELL ∧ p < o.price)
      · simp only [matchSide, if_pos h1, if_pos h2, List.cons.injEq] at hcons
        obtain ⟨rfl, rfl⟩ := hcons
        constructor
        · intro hBUY
          rcases h2 with ⟨_, hp⟩ | ⟨hS, _⟩
          · exact hp
          · rw [hBUY] at hS; exact absurd hS (by simp)
        · intro hSELL
          rcases h2 with ⟨hB, _⟩ | ⟨_, hp⟩
          · rw [hSELL] at hB; exact absurd hB (by simp)
          · exact hp
      · simp only [matchSide, if_pos h1, if_neg h2] at hcons hq
        revert hcons hq
        split
        · intro hcons hq
          have := ih _ _ _ hcons (by simpa using hq)
          simpa using this
        · rename_i hne
          intro hcons hq
          exfalso
          have hr : ¬ eps < (matchQueue o.quantity q).1 := by
            intro hgt
            have := matchQueue_rem_nonempty q o.quantity hgt
            rw [this] at hne
            simp at hne
          rw [matchSide_noop rest _ (by simpa using hr)] at hq
          exact hr (by simpa using hq)
    · rw [matchSide_noop _ _ h1] at hq
      exact absurd hq h1

/-- In a strictly ascending level list, the head price is minimal. -/
lemma mem_prices_ge_head (p1 : ℚ) (q1 : List Order)
    (rest : List (ℚ × List Order)) (hA : sortedAsks ((p1, q1) :: rest))
    (a : ℚ) (ha : a ∈ ((p1, q1) :: rest).map Prod.fst) : p1 ≤ a := by
  rcases List.mem_map.mp ha with ⟨x, hx, rfl⟩
  rcases List.mem_cons.mp hx with rfl | hx2
  · exact le_refl _
  · exact ((List.pairwise_cons.mp hA).1 x hx2).le

/-- In a strictly descending level list, the head price is maximal. -/
lemma mem_prices_le_head (b1 : ℚ) (q1 : List Order)
    (rest : List (ℚ × List Order)) (hB : sortedBids ((b1, q1) :: rest))
    (b : ℚ) (hb : b ∈ ((b1, q1) :: rest).map Prod.fst) : b ≤ b1 := by
  rcases List.mem_map.mp hb with ⟨x, hx, rfl⟩
  rcases List.mem_cons.mp hx with rfl | hx2
  · exact le_refl _
  · exact ((List.pairwise_cons.mp hB).1 x hx2).le

/-- Any price below every original ask price is below the price of the
best ask level surviving a match of the ask side. -/
lemma lt_surviving_ask_head (m : List (ℚ × List Order)) (hA : sortedAsks m)
    (o : Order) (hd : ℚ × List Order) (tl : List (ℚ × List Order))
    (hcons : (matchSide o m).2.1 = hd :: tl) (b1 : ℚ)
    (hlt : ∀ (p1 : ℚ) (q1 : List Order) (rest2 : List (ℚ × List Order)),
      m = (p1, q1) :: rest2 → b1 < p1) : b1 < hd.1 := by
  have hmem : hd.1 ∈ m.map Prod.fst :=
    matchSide_price_mem m o hd (hcons ▸ List.mem_cons_self hd tl)
  cases m with
  | nil => simp at hmem
  | cons pq rest2 =>
    obtain ⟨p1, q1⟩ := pq
    exact lt_of_lt_of_le (hlt p1 q1 rest2 rfl)
      (mem_prices_ge_head p1 q1 rest2 hA hd.1 hmem)

/-- The price of the best bid level surviving a match of the bid side is
below any price above every original bid price. -/
lemma surviving_bid_head_lt (m : List (ℚ × List Order)) (hB : sortedBids m)
    (o : Order) (hd : ℚ × List Order) (tl : List (ℚ × List Order))
    (hcons : (matchSide o m).2.1 = hd :: tl) (p1 : ℚ)
    (hlt : ∀ (b1 : ℚ) (q1 : List Order) (rest2 : List (ℚ × List Order)),
      m = (b1, q1) :: rest2 → b1 < p1) : hd.1 < p1 := by
  have hmem : hd.1 ∈ m.map Prod.fst :=
    matchSide_price_mem m o hd (hcons ▸ List.mem_cons_self hd tl)
  cases m with
  | nil => simp at hmem
  | cons pq rest2 =>
    obtain ⟨b1, q1⟩ := pq
    exact lt_of_le_of_lt (mem_prices_le_head b1 q1 rest2 hB hd.1 hmem)
      (hlt b1 q1 rest2 rfl)

/-- Claim C7 (amended): `limitOrder` keeps an uncrossed book uncrossed
(sides given with their `std::map` key ordering). -/
theorem crossing_prevention_post_match (st : OrderBook) (id : ℕ) (p q : ℚ)
    (sd : Side) (sym : String) (hA : sortedAsks st.asks)
    (hB : sortedBids st.bids) (hU : Uncrossed st) :
    Uncrossed (limitOrder st id p q sd sym) := by
  by_cases hLook : lookupContains st.order_lookup id = true
  · simpa [limitOrder, hLook] using hU
  · cases sd with
    | BUY =>
      simp only [limitOrder, if_neg hLook]
      by_cases hrem :
          eps < (matchSide (Order.make id p q Side.BUY sym) st.asks).1.quantity
      · simp only [if_pos hrem]
        intro b a hb ha
        simp only [bestBid, bestAsk] at hb ha
        cases hcons : (matchSide (Order.make id p q Side.BUY sym) st.asks).2.1 with
        | nil => rw [hcons] at ha; simp at ha
        | cons hd tl =>
          rw [hcons] at ha
          simp only [List.head?_cons, Option.map_some', Option.some.injEq] at ha
          have hpa : p < a := by
            have := (matchSide_head_beyond st.asks (Order.make id p q Side.BUY sym)
              hd tl hcons hrem).1 rfl
            simpa [Order.make, ha] using this
          have hprice : (matchSide (Order.make id p q Side.BUY sym) st.asks).1.price = p :=
            (matchSide_price_side st.asks _).1
          cases hbids : st.bids with
          | nil =>
            rw [hbids] at hb
            simp only [insertOrder, hprice, List.head?_cons, Option.map_some', Option.some.injEq] at hb
            rw [← hb]
            exact hpa
          | cons bpq brest =>
            obtain ⟨b1, q1⟩ := bpq
            rw [hbids] at hb
            by_cases hins : bidBefore
                (matchSide (Order.make id p q Side.BUY sym) st.asks).1.price b1 = true
            · simp only [insertOrder, if_pos hins, List.head?_cons, Option.map_some', Option.some.injEq] at hb
              rw [hprice] at hb
              rw [← hb]
              exact hpa
            · by_cases heq :
                  (matchSide (Order.make id p q Side.BUY sym) st.asks).1.price = b1
              · simp only [insertOrder, if_neg hins, if_pos heq, List.head?_cons,
                  Option.map_some', Option.some.injEq] at hb
                rw [← hb, ← heq, hprice]
                exact hpa
              · simp only [insertOrder, if_neg hins, if_neg heq, List.head?_cons,
                  Option.map_some', Option.some.injEq] at hb
                rw [← hb, ← ha]
                exact lt_surviving_ask_head st.asks hA _ hd tl hcons b1
                  (fun p1 pq1 rest2 hm =>
                    hU b1 p1 (by simp [bestBid, hbids]) (by simp [bestAsk, hm]))
      · simp only [if_neg hrem]
        intro b a hb ha
        simp only [bestBid, bestAsk] at hb ha
        cases hcons : (matchSide (Order.make id p q Side.BUY sym) st.asks).2.1 with
        | nil => rw [hcons] at ha; simp at ha
        | cons hd tl =>
          rw [hcons] at ha
          simp only [List.head?_cons, Option.map_some', Option.some.injEq] at ha
          cases hbids : st.bids with
          | nil => rw [hbids] at hb; simp at hb
          | cons bpq brest =>
            obtain ⟨b1, q1⟩ := bpq
            rw [hbids] at hb
            simp only [List.head?_cons, Option.map_some', Option.some.injEq] at hb
            rw [← hb, ← ha]
            exact lt_surviving_ask_head st.asks hA _ hd tl hcons b1
              (fun p1 pq1 rest2 hm =>
                hU b1 p1 (by simp [bestBid, hbids]) (by simp [bestAsk, hm]))
    | SELL =>
      simp only [limitOrder, if_neg hLook]
      by_cases hrem :
          eps < (matchSide (Order.make id p q Side.SELL sym) st.bids).1.quantity
      · simp only [if_pos hrem]
        intro b a hb ha
        simp only [bestBid, bestAsk] at hb ha
        cases hcons : (matchSide (Order.make id p q Side.SELL sym) st.bids).2.1 with
        | nil => rw [hcons] at hb; simp at hb
        | cons hd tl =>
          rw [hcons] at hb
          simp only [List.head?_cons, Option.map_some', Option.some.injEq] at hb
          have hbp : b < p := by
            have := (matchSide_head_beyond st.bids (Order.make id p q Side.SELL sym)
              hd tl hcons hrem).2 rfl
            simpa [Order.make, hb] using this
          have hprice : (matchSide (Order.make id p q Side.SELL sym) st.bids).1.price = p :=
            (matchSide_price_side st.bids _).1
          cases hasks : st.asks with
          | nil =>
            rw [hasks] at ha
            simp only [insertOrder, hprice, List.head?_cons, Option.map_some', Option.some.injEq] at ha
            rw [← ha]
            exact hbp
          | cons apq arest =>
            obtain ⟨p1, q1⟩ := apq
            rw [hasks] at ha
            by_cases hins : askBefore
                (matchSide (Order.make id p q Side.SELL sym) st.bids).1.price p1 = true
            · simp only [insertOrder, if_pos hins, List.head?_cons, Option.map_some', Option.some.injEq] at ha
              rw [hprice] at ha
              rw [← ha]
              exact hbp
            · by_cases heq :
                  (matchSide (Order.make id p q Side.SELL sym) st.bids).1.price = p1
              · simp only [insertOrder, if_neg hins, if_pos heq, List.head?_cons,
                  Option.map_some', Option.some.injEq] at ha
                rw [← ha, ← heq, hprice]
                exact hbp
              · simp only [insertOrder, if_neg hins, if_neg heq, List.head?_cons,
                  Option.map_some', Option.some.injEq] at ha
                rw [← ha, ← hb]
                exact surviving_bid_head_lt st.bids hB _ hd tl hcons p1
                  (fun b1 bq1 rest2 hm =>
                    hU b1 p1 (by simp [bestBid, hm]) (by simp [bestAsk, hasks]))
      · simp only [if_neg hrem]
        intro b a hb ha
        simp only [bestBid, bestAsk] at hb ha
        cases hcons : (matchSide (Order.make id p q Side.SELL sym) st.bids).2.1 with
        | nil => rw [hcons] at hb; simp at hb
        | cons hd tl =>
          rw [hcons] at hb
          simp only [List.head?_cons, Option.map_some', Option.some.injEq] at hb
          cases hasks : st.asks with
          | nil => rw [hasks] at ha; simp at ha
          | cons apq arest =>
            obtain ⟨p1, q1⟩ := apq
            rw [hasks] at ha
            simp only [List.head?_cons, Option.map_some', Option.some.injEq] at ha
            rw [← hb, ← ha]
            exact surviving_bid_head_lt st.bids hB _ hd tl hcons p1
              (fun b1 bq1 rest2 hm =>
                hU b1 p1 (by simp [bestBid, hm]) (by simp [bestAsk, hasks]))

lemma not_eps_lt_zero : ¬ eps < (0 : ℚ) := by
  exact fun h => absurd (h.trans eps_pos) (lt_irrefl eps)

/-- Claim C9: price-time priority within a level.  For two resting
orders A (in front) and B at the same price, a crossing taker either
(i) can only partially fill A (`eps ≤ A.quantity - inc`): then the fill
is `min = inc`, A keeps its front queue position with its quantity
decremented in place, and B and everything behind it are untouched; or
(ii) covers A (`A.quantity ≤ inc`): then A is fully consumed and removed
(and reported for index erasure if local) before B is touched at all,
and matching continues on B with the reduced remainder. -/
theorem price_time_priority (A B : Order) (rest : List Order) (inc : ℚ)
    (h1 : eps < inc) :
    (eps ≤ A.quantity - inc →
      matchQueue inc (A :: B :: rest) =
        (0, { A with quantity := A.quantity - inc } :: B :: rest, [])) ∧
    (A.quantity ≤ inc →
      matchQueue inc (A :: B :: rest) =
        ((matchQueue (inc - A.quantity) (B :: rest)).1,
         (matchQueue (inc - A.quantity) (B :: rest)).2.1,
         (if A.id ≠ 0 then [A.id] else []) ++
           (matchQueue (inc - A.quantity) (B :: rest)).2.2)) := by
  constructor
  · intro h2
    have hle : inc ≤ A.quantity := by have := eps_pos; linarith
    have hmin : min inc A.quantity = inc := min_eq_left hle
    have hk2 : ¬ (A.quantity - inc < eps) := not_lt.mpr h2
    have h0 : matchQueue (0 : ℚ) (B :: rest) = (0, B :: rest, []) :=
      matchQueue_noop 0 (B :: rest) not_eps_lt_zero
    simp only [matchQueue, if_pos h1, hmin, if_neg hk2, sub_self]
    rw [if_neg not_eps_lt_zero]
  · intro h2
    have hmin : min inc A.quantity = A.quantity := min_eq_right h2
    have hk : A.quantity - A.quantity < eps := by rw [sub_self]; exact eps_pos
    simp only [matchQueue, if_pos h1, hmin, if_pos hk]

/-- Witness for C9 at a concrete input: taker quantity 3 against
A = 5@10 (id 2) in front of B = 4@10 (id 3): A is decremented in place
to 2, B untouched, no removals. -/
theorem price_time_priority_witness :
    eps < (3 : ℚ) ∧ eps ≤ (Order.make 2 10 5 Side.SELL "S").quantity - 3 ∧
    matchQueue 3 [Order.make 2 10 5 Side.SELL "S", Order.make 3 10 4 Side.SELL "S"] =
      (0, { Order.make 2 10 5 Side.SELL "S" with
              quantity := (Order.make 2 10 5 Side.SELL "S").quantity - 3 } ::
           [Order.make 3 10 4 Side.SELL "S"], []) :=
  ⟨by with_unfolding_all decide, by with_unfolding_all decide,
   (price_time_priority (Order.make 2 10 5 Side.SELL "S")
      (Order.make 3 10 4 Side.SELL "S") [] 3
      (by with_unfolding_all decide)).1 (by with_unfolding_all decide)⟩

/-- Claim C8: submitting with an id already present in the index leaves
the entire book state (sides, index, every resting order, seq id)
exactly unchanged — the attempted order is not created. -/
theorem duplicate_id_submission_noop (st : OrderBook) (id : ℕ) (p q : ℚ)
    (sd : Side) (sym : String) (h : lookupContains st.order_lookup id = true) :
    limitOrder st id p q sd sym = st := by
  simp [limitOrder, h]

/-- Witness for C8: resubmitting id 5 onto `sell5Book` is a no-op. -/
theorem duplicate_id_submission_noop_witness :
    lookupContains sell5Book.order_lookup 5 = true ∧
    limitOrder sell5Book 5 7 3 Side.BUY "S" = sell5Book :=
  ⟨by with_unfolding_all decide,
   duplicate_id_submission_noop sell5Book 5 7 3 Side.BUY "S"
     (by with_unfolding_all decide)⟩

/-- Claim C10: the depth snapshot is read-only — it leaves the bid map,
the ask map, the order index and `lastSeqId` exactly unchanged, for
every book state and every requested number of levels. -/
theorem depth_snapshot_readonly (st : OrderBook) (levels : ℕ) :
    (displayDepth st levels).1.bids = st.bids ∧
    (displayDepth st levels).1.asks = st.asks ∧
    (displayDepth st levels).1.order_lookup = st.order_lookup ∧
    (displayDepth st levels).1.lastSeqId = st.lastSeqId := by
  have h : (displayDepth st levels).1 = st := by
    unfold displayDepth
    split <;> rfl
  rw [h]
  exact ⟨rfl, rfl, rfl, rfl⟩

lemma checkAndMatch_lastSeqId (st : OrderBook) :
    (checkAndMatchLocalOrders st).lastSeqId = st.lastSeqId := by
  unfold checkAndMatchLocalOrders
  split <;> rfl

lemma updateLevel_lastSeqId (st : OrderBook) (sd : Side) (p tq : ℚ) :
    (updateLevel st sd p tq).lastSeqId = st.lastSeqId := by
  cases sd <;> simp [updateLevel, checkAndMatch_lastSeqId]

lemma foldl_updateLevel_lastSeqId (levels : List (Side × ℚ × ℚ)) :
    ∀ st : OrderBook,
    (levels.foldl (fun s l => updateLevel s l.1 l.2.1 l.2.2) st).lastSeqId =
      st.lastSeqId := by
  induction levels with
  | nil => intro st; rfl
  | cons l rest ih =>
    intro st
    rw [List.foldl_cons, ih, updateLevel_lastSeqId]

/-- Claim C4 (amended): the ingest path applies every record
unconditionally — the outcome is always `Applied` (there is no gap
branch; `prevSeqId` is never consulted) and `lastSeqId` ends at the
record's own `seqId`, for snapshots (which clear the book first) and
updates alike. -/
theorem ingest_always_applied (st : OrderBook) (action : FeedAction)
    (seqId prevSeqId : ℤ) (levels : List (Side × ℚ × ℚ)) :
    (ingestFeedRecord st action seqId prevSeqId levels).1 =
      SequenceOutcome.Applied ∧
    (ingestFeedRecord st action seqId prevSeqId levels).2.lastSeqId = seqId := by
  constructor
  · rfl
  · simp only [ingestFeedRecord]
    rw [foldl_updateLevel_lastSeqId]
    cases action <;> rfl

/-- Counterexample to claim C4 as stated: with `lastSeqId = 9`, an
update with `prevSeqId = 15 ≠ 9` and `seqId = 20 ≥ 15` is NOT reported
as `GapDetected` — it is applied silently (levels merged, `lastSeqId`
advanced to 20). -/
theorem sequence_gap_not_detected_cx :
    (setSeqId emptyBook 9).lastSeqId = 9 ∧ ((15 : ℤ) ≠ 9) ∧ ((15 : ℤ) ≤ 20) ∧
    (ingestFeedRecord (setSeqId emptyBook 9) FeedAction.Update 20 15
        [(Side.BUY, 10, 5)]).1 ≠ SequenceOutcome.GapDetected ∧
    (ingestFeedRecord (setSeqId emptyBook 9) FeedAction.Update 20 15
        [(Side.BUY, 10, 5)]).2 =
      { asks := [], bids := [(10, [Order.make 0 10 5 Side.BUY "OKX"])],
        order_lookup := [], lastSeqId := 20 } := by
  with_unfolding_all decide

lemma lookupFind_eraseIds_self (l : List (ℕ × OrderEntry)) (id : ℕ) :
    lookupFind (eraseIds l [id]) id = none := by
  induction l with
  | nil => rfl
  | cons kv rest ih =>
    by_cases h : kv.1 = id
    · simpa [eraseIds, List.filter_cons, h] using ih
    · simpa [eraseIds, lookupFind, List.filter_cons, List.find?, h] using ih

/-- Claim C3: the cancel contract (operation modelled from the spec, as
the source has no cancel).  An id absent from the index is a no-op
returning `NotFound`; a present id returns `Cancelled` and its index
entry is gone; the spec scenario: submit SELL id=5 price=12 qty=10 on an
empty book gives one ask level 10@12, cancel(5) empties the book, and a
second cancel(5) returns `NotFound`. -/
theorem cancel_contract :
    (∀ (st : OrderBook) (id : ℕ), lookupFind st.order_lookup id = none →
      cancel st id = (CancelOutcome.NotFound, st)) ∧
    (∀ (st : OrderBook) (id : ℕ) (e : OrderEntry),
      lookupFind st.order_lookup id = some e →
      (cancel st id).1 = CancelOutcome.Cancelled ∧
      lookupFind (cancel st id).2.order_lookup id = none) ∧
    (sell5Book.asks = [(12, [Order.make 5 12 10 Side.SELL "S"])] ∧
     sell5Book.bids = [] ∧
     cancel sell5Book 5 =
       (CancelOutcome.Cancelled,
        { asks := [], bids := [], order_lookup := [], lastSeqId := -1 }) ∧
     (cancel (cancel sell5Book 5).2 5).1 = CancelOutcome.NotFound) := by
  refine ⟨?_, ?_, ?_⟩
  · intro st id h
    simp [cancel, h]
  · intro st id e h
    refine ⟨by simp [cancel, h], ?_⟩
    simp only [cancel, h]
    exact lookupFind_eraseIds_self st.order_lookup id
  · with_unfolding_all decide

/-- Witness for C3 at concrete inputs. -/
theorem cancel_contract_witness :
    cancel emptyBook 3 = (CancelOutcome.NotFound, emptyBook) ∧
    (cancel sell5Book 5).1 = CancelOutcome.Cancelled ∧
    lookupFind (cancel sell5Book 5).2.order_lookup 5 = none :=
  ⟨cancel_contract.1 emptyBook 3 (by with_unfolding_all decide),
   (cancel_contract.2.1 sell5Book 5 ⟨12, Side.SELL⟩
      (by with_unfolding_all decide)).1,
   (cancel_contract.2.1 sell5Book 5 ⟨12, Side.SELL⟩
      (by with_unfolding_all decide)).2⟩

/-- Witness for C7 (amended): submitting on the empty (trivially
uncrossed, trivially sorted) book yields an uncrossed book. -/
theorem crossing_prevention_post_match_witness :
    Uncrossed (limitOrder emptyBook 1 10 5 Side.BUY "S") :=
  crossing_prevention_post_match emptyBook 1 10 5 Side.BUY "S"
    (by simp [sortedAsks, emptyBook]) (by simp [sortedBids, emptyBook])
    (by intro b a hb _; simp [bestBid, emptyBook] at hb)

/-- Counterexample to claim C7 as stated ("for every book state"): on
`crossedBook` (crossed purely by synthetic feed levels, which
reconciliation deliberately leaves crossed), a submit that does not
cross leaves bestBid = 10 ≥ 9 = bestAsk with both sides non-empty. -/
theorem crossing_prevention_cx :
    bestBid (limitOrder crossedBook 1 5 1 Side.BUY "S") = some 10 ∧
    bestAsk (limitOrder crossedBook 1 5 1 Side.BUY "S") = some 9 ∧
    ¬ (10 : ℚ) < 9 := by
  with_unfolding_all decide

/-- Claim C1 evaluated at the failing input: after SELL id=2 5@10 rests
and BUY id=1 3@10 partially fills it, the resting maker holds
`quantity = 2`, `originalQuantity = 5`, `filledQuantity = 0` — the
source never increments `filledQuantity`, so
`filledQuantity + quantity = 0 + 2 ≠ 5 = originalQuantity`. -/
theorem fill_conservation_violated :
    (limitOrder (limitOrder emptyBook 2 10 5 Side.SELL "S") 1 10 3 Side.BUY "S").asks =
      [(10, [{ id := 2, price := 10, quantity := 2, originalQuantity := 5,
               filledQuantity := 0, side := Side.SELL, symbol := "S" }])] ∧
    ¬ ((0 : ℚ) + 2 = 5) := by
  with_unfolding_all decide

/-- Claim C2 evaluated at the failing input: `updateLevel(SELL, 12, 0)`
erases the whole ask level 12 — including the resting local order id 5 —
without touching the index, leaving id 5 in `order_lookup` while no
order with a non-zero id rests anywhere in the book. -/
theorem index_consistency_violated :
    lookupContains (updateLevel sell5Book Side.SELL 12 0).order_lookup 5 = true ∧
    restingIds (updateLevel sell5Book Side.SELL 12 0) = [] := by
  with_unfolding_all decide

/-- Claim C5 evaluated at the failing input: with only the local order
id=7 5@100 resting at the front of bid level 100,
`updateLevel(BUY, 100, 42)` overwrites the LOCAL order's quantity with
the feed's 42 (the source writes `queue.front().quantity =
totalQuantity` even when the front is local), displacing it. -/
theorem feed_update_overwrites_local_order :
    (limitOrder emptyBook 7 100 5 Side.BUY "S").bids =
      [(100, [Order.make 7 100 5 Side.BUY "S"])] ∧
    (updateLevel (limitOrder emptyBook 7 100 5 Side.BUY "S") Side.BUY 100 42).bids =
      [(100, [{ id := 7, price := 100, quantity := 42, originalQuantity := 5,
                filledQuantity := 0, side := Side.BUY, symbol := "S" }])] ∧
    ((42 : ℚ) ≠ 5) := by
  with_unfolding_all decide

/-- Claim C6 evaluated at the failing input: a feed ask 5@9 fully
crosses the lone local bid 5@10; both head queues empty in the same
step, but the `else if` in `checkAndMatchLocalOrders` drops only the
bid level and the loop then exits (bids exhausted), leaving the EMPTY
ask level at price 9 resident in the ask map. -/
theorem empty_level_persists :
    (updateLevel (limitOrder emptyBook 1 10 5 Side.BUY "S") Side.SELL 9 5).asks =
      [(9, [])] := by
  with_unfolding_all decide
